import Mathlib

/-!
Verification of the flocker node convergence engine and its command-line
scripts, as a shallow embedding.  Strings are modelled as lists of
characters so that parsing functions can be defined and reasoned about
structurally.  The repository source available here consists of the test
modules only; the definitions below are therefore modelled from the
specification, with the test fixtures fixing the concrete behaviour.
-/

/-- Strings of the model, as lists of characters. -/
abbrev Str := List Char

/-- The default image tag used when an image reference omits one. -/
def latestTag : Str := "latest".toList

/-- Modelled from the spec: the `DockerImage` value type,
`(repository, tag)`, of `flocker.node._model` (absent from the sources). -/
structure DockerImage where
  repository : Str
  tag : Str
deriving DecidableEq

/-- Split a character list at its last colon, returning the parts before
and after it, or `none` when it contains no colon. -/
def splitLastColon : Str → Option (Str × Str)
  | [] => none
  | c :: rest =>
    match splitLastColon rest with
    | some (pre, post) => some (c :: pre, post)
    | none => if c = ':' then some ([], rest) else none

/-- Error message for an image reference with an empty repository part. -/
def invalidImageMsg : Str := "Invalid image reference.".toList

/-- Modelled from the spec: `DockerImage.from_string` of
`flocker.node._model` (absent from the sources) parses a
`repository:tag` reference, the tag defaulting to `latest` when omitted,
and fails (`ParseError`) when the repository part is empty. -/
def DockerImage.fromString (s : Str) : Except Str DockerImage :=
  match splitLastColon s with
  | some (repo, tag) =>
    if repo = [] then .error invalidImageMsg else .ok ⟨repo, tag⟩
  | none =>
    if s = [] then .error invalidImageMsg else .ok ⟨s, latestTag⟩

/-- Render a `DockerImage` to its canonical `repository:tag` string. -/
def DockerImage.full (i : DockerImage) : Str :=
  i.repository ++ ':' :: i.tag

/-- A colon-free string splits at no colon. -/
theorem splitLastColon_eq_none {s : Str} (h : ':' ∉ s) :
    splitLastColon s = none := by
  induction s with
  | nil => rfl
  | cons c rest ih =>
    have hc : ¬ c = ':' := fun he => h (he ▸ List.mem_cons_self c rest)
    have hr : ':' ∉ rest := fun hm => h (List.mem_cons_of_mem c hm)
    simp [splitLastColon, ih hr, hc]

/-- Splitting `repo ++ ":" ++ tag` at the last colon recovers the parts
when the tag itself contains no colon. -/
theorem splitLastColon_append (repo tag : Str) (h : ':' ∉ tag) :
    splitLastColon (repo ++ ':' :: tag) = some (repo, tag) := by
  induction repo with
  | nil => simp [splitLastColon, splitLastColon_eq_none h]
  | cons c rest ih => simp [splitLastColon, ih]

/-- Parsing the canonical rendering of an image recovers the image,
provided the tag is colon-free and the repository nonempty. -/
theorem fromString_full (i : DockerImage) (htag : ':' ∉ i.tag)
    (hrepo : i.repository ≠ []) :
    DockerImage.fromString i.full = .ok i := by
  simp [DockerImage.fromString, DockerImage.full,
    splitLastColon_append i.repository i.tag htag, hrepo]

/-- The image reference of the parsing examples, without a tag. -/
def sampleImageNoTag : Str := "x/y".toList

/-- The sample tag of the parsing examples. -/
def sampleTag : Str := "1.2".toList

/-- The image reference of the parsing examples, with a tag. -/
def sampleImageWithTag : Str := "x/y:1.2".toList

/-- C3: parsing an image reference with no colon yields the `latest` tag,
parsing one with a tag yields that tag, and parsing inverts rendering
through the canonical `repository:tag` form (for colon-free tags and
nonempty repositories, where the form is unambiguous). -/
theorem image_reference_parsing :
    DockerImage.fromString sampleImageNoTag =
      .ok ⟨sampleImageNoTag, latestTag⟩ ∧
    DockerImage.fromString sampleImageWithTag =
      .ok ⟨sampleImageNoTag, sampleTag⟩ ∧
    ∀ i : DockerImage, ':' ∉ i.tag → i.repository ≠ [] →
      DockerImage.fromString i.full = .ok i := by
  refine ⟨rfl, rfl, ?_⟩
  intro i htag hrepo
  exact fromString_full i htag hrepo

/-- Witness for C3: the round-trip conjunct evaluated at the sample image
with a tag. -/
theorem image_reference_parsing_witness :
    DockerImage.fromString
        (DockerImage.full ⟨sampleImageNoTag, sampleTag⟩) =
      .ok ⟨sampleImageNoTag, sampleTag⟩ :=
  image_reference_parsing.2.2 ⟨sampleImageNoTag, sampleTag⟩
    (by decide) (by decide)

/-- Modelled from the spec: a port mapping of an `Application`. -/
structure PortMap where
  internalPort : Nat
  externalPort : Nat
deriving DecidableEq

/-- Modelled from the spec: a link between applications. -/
structure Link where
  localPort : Nat
  remotePort : Nat
  linkAlias : Str
deriving DecidableEq

/-- Modelled from the spec: the `AttachedVolume` value type of
`flocker.node._model` (absent from the sources). -/
structure AttachedVolume where
  name : Str
  mountpoint : Str
deriving DecidableEq

/-- Modelled from the spec: the `Application` value type of
`flocker.node._model` (absent from the sources). -/
structure Application where
  name : Str
  image : DockerImage
  ports : List PortMap
  links : List Link
  volume : Option AttachedVolume
  running : Bool
deriving DecidableEq

/-- Modelled from the spec: the `Node` value type of
`flocker.node._model` (absent from the sources); its application set is
embedded as a list, valid when application names are pairwise distinct. -/
structure Node where
  hostname : Str
  applications : List Application
deriving DecidableEq

/-- Modelled from the spec: the `Deployment` value type of
`flocker.node._model` (absent from the sources); its node set is
embedded as a list, valid when hostnames are pairwise distinct. -/
structure Deployment where
  nodes : List Node
deriving DecidableEq

/-- Modelled from the spec: a change operation emitted by the
convergence engine of `flocker.node._deploy` (absent from the sources). -/
inductive StateChange
  | StopApplication (application : Application)
  | StartApplication (application : Application)
  | DetachVolume (volume : AttachedVolume)
  | AttachVolume (volume : AttachedVolume)
deriving DecidableEq

/-- Modelled from the spec: extract the node of a deployment for a
hostname, absent entries defaulting to an empty node. -/
def Deployment.nodeFor (d : Deployment) (hostname : Str) : Node :=
  (d.nodes.find? (fun n => n.hostname == hostname)).getD ⟨hostname, []⟩

/-- Modelled from the spec: the applications to stop on this node —
present in current but absent by name from desired, or present in both
with unequal configuration. -/
def toStopList (desiredApps currentApps : List Application) :
    List Application :=
  currentApps.filter (fun current =>
    match desiredApps.find? (fun d => d.name == current.name) with
    | none => true
    | some d => d != current)

/-- Modelled from the spec: the applications to start on this node —
present in desired but absent by name from current, or present in both
with unequal configuration. -/
def toStartList (desiredApps currentApps : List Application) :
    List Application :=
  desiredApps.filter (fun desired =>
    match currentApps.find? (fun c => c.name == desired.name) with
    | none => true
    | some c => c != desired)

/-- Modelled from the spec: the stop phase of a plan — a stop action per
application, its volume detach action placed directly after its stop. -/
def stopChanges : List Application → List StateChange
  | [] => []
  | a :: rest =>
    StateChange.StopApplication a ::
      ((match a.volume with
        | some v => [StateChange.DetachVolume v]
        | none => []) ++ stopChanges rest)

/-- Modelled from the spec: the start phase of a plan — a start action
per application, its volume attach action placed directly before its
start. -/
def startChanges : List Application → List StateChange
  | [] => []
  | a :: rest =>
    (match a.volume with
     | some v => [StateChange.AttachVolume v]
     | none => []) ++
      (StateChange.StartApplication a :: startChanges rest)

/-- The stop phase of the plan computed for a hostname. -/
def stopsPart (desired current : Deployment) (hostname : Str) :
    List StateChange :=
  stopChanges (toStopList (desired.nodeFor hostname).applications
    (current.nodeFor hostname).applications)

/-- The start phase of the plan computed for a hostname. -/
def startsPart (desired current : Deployment) (hostname : Str) :
    List StateChange :=
  startChanges (toStartList (desired.nodeFor hostname).applications
    (current.nodeFor hostname).applications)

/-- Modelled from the spec: `Deployer.change_node_state` /
`calculate_changes` of `flocker.node._deploy` (absent from the
sources) — the pure convergence engine: all stop actions (with their
detaches) strictly before all start actions (with their attaches). -/
def calculate_changes (desired current : Deployment) (hostname : Str) :
    List StateChange :=
  stopsPart desired current hostname ++ startsPart desired current hostname

/-- The application names of a list are pairwise distinct (the `Node`
construction invariant of the spec). -/
def distinctNames (apps : List Application) : Prop :=
  apps.Pairwise (fun a b => a.name ≠ b.name)

instance (apps : List Application) : Decidable (distinctNames apps) :=
  inferInstanceAs (Decidable (apps.Pairwise _))

/-- In a list of applications with pairwise-distinct names, searching by
the name of a member finds exactly that member. -/
theorem find?_name_of_distinct {apps : List Application} {a : Application}
    (hdist : distinctNames apps) (hmem : a ∈ apps) :
    apps.find? (fun d => d.name == a.name) = some a := by
  induction apps with
  | nil => simp at hmem
  | cons b rest ih =>
    rcases List.pairwise_cons.1 hdist with ⟨hb, hrest⟩
    rcases List.mem_cons.1 hmem with rfl | hm
    · simp [List.find?]
    · have hne : ¬ (b.name == a.name) = true := by
        simpa using hb a hm
      simp [List.find?, hne, ih hrest hm]

/-- Diffing a valid application list against itself plans no stops. -/
theorem toStopList_self {apps : List Application}
    (hdist : distinctNames apps) : toStopList apps apps = [] := by
  rw [toStopList, List.filter_eq_nil_iff]
  intro a hmem
  simp [find?_name_of_distinct hdist hmem]

/-- Diffing a valid application list against itself plans no starts. -/
theorem toStartList_self {apps : List Application}
    (hdist : distinctNames apps) : toStartList apps apps = [] := by
  rw [toStartList, List.filter_eq_nil_iff]
  intro a hmem
  simp [find?_name_of_distinct hdist hmem]

/-- C1: idempotence of the convergence engine — when the current state of
the node already equals the desired configuration restricted to that
hostname (and the node is valid, its application names being distinct),
`calculate_changes` returns the empty plan. -/
theorem calculate_changes_idempotent (desired current : Deployment)
    (hostname : Str)
    (hdist : distinctNames (desired.nodeFor hostname).applications)
    (heq : (current.nodeFor hostname).applications =
      (desired.nodeFor hostname).applications) :
    calculate_changes desired current hostname = [] := by
  rw [calculate_changes, stopsPart, startsPart, heq,
    toStopList_self hdist, toStartList_self hdist]
  rfl

/-- The volume named by the worked examples below. -/
def exVolume : AttachedVolume := ⟨"db-vol".toList, "/data".toList⟩

/-- The previous image of the worked examples. -/
def exImageOld : DockerImage := ⟨"nginx".toList, "1".toList⟩

/-- The new image of the worked examples. -/
def exImageNew : DockerImage := ⟨"nginx".toList, "2".toList⟩

/-- The application name of the worked examples. -/
def exAppNameWeb : Str := "web".toList

/-- The currently running application of the worked examples. -/
def exAppCur : Application :=
  ⟨exAppNameWeb, exImageOld, [], [], some exVolume, true⟩

/-- The desired application of the worked examples. -/
def exAppDes : Application :=
  ⟨exAppNameWeb, exImageNew, [], [], some exVolume, true⟩

/-- The hostname of the worked examples. -/
def exHost : Str := "node1.example.com".toList

/-- The desired deployment of the worked examples. -/
def exDesired : Deployment := ⟨[⟨exHost, [exAppDes]⟩]⟩

/-- The current deployment of the worked examples. -/
def exCurrent : Deployment := ⟨[⟨exHost, [exAppCur]⟩]⟩

/-- Witness for C1: an already-converged node yields the empty plan. -/
theorem calculate_changes_idempotent_witness :
    calculate_changes exDesired exDesired exHost = [] :=
  calculate_changes_idempotent exDesired exDesired exHost
    (by decide) rfl

/-- Every action of the stop phase is a stop or a volume detach. -/
theorem mem_stopChanges {l : List Application} {ch : StateChange}
    (h : ch ∈ stopChanges l) :
    (∃ a, ch = StateChange.StopApplication a) ∨
      (∃ v, ch = StateChange.DetachVolume v) := by
  induction l with
  | nil => simp [stopChanges] at h
  | cons b rest ih =>
    simp only [stopChanges] at h
    rcases List.mem_cons.1 h with hc | hm
    · exact .inl ⟨b, hc⟩
    · rcases List.mem_append.1 hm with hv | hr
      · cases hbv : b.volume with
        | some v =>
          rw [hbv] at hv
          simp only [List.mem_singleton] at hv
          exact .inr ⟨v, hv⟩
        | none => rw [hbv] at hv; simp at hv
      · exact ih hr

/-- Every action of the start phase is a start or a volume attach. -/
theorem mem_startChanges {l : List Application} {ch : StateChange}
    (h : ch ∈ startChanges l) :
    (∃ a, ch = StateChange.StartApplication a) ∨
      (∃ v, ch = StateChange.AttachVolume v) := by
  induction l with
  | nil => simp [startChanges] at h
  | cons b rest ih =>
    simp only [startChanges] at h
    rcases List.mem_append.1 h with hv | hm
    · cases hbv : b.volume with
      | some v =>
        rw [hbv] at hv
        simp only [List.mem_singleton] at hv
        exact .inr ⟨v, hv⟩
      | none => rw [hbv] at hv; simp at hv
    · rcases List.mem_cons.1 hm with hc | hr
      · exact .inl ⟨b, hc⟩
      · exact ih hr

/-- In the stop phase, the detach action of a stopped application's
volume follows that application's stop action. -/
theorem stop_detach_sublist {l : List Application} {a : Application}
    {v : AttachedVolume} (hvol : a.volume = some v)
    (hmem : StateChange.StopApplication a ∈ stopChanges l) :
    List.Sublist
      [StateChange.StopApplication a, StateChange.DetachVolume v]
      (stopChanges l) := by
  induction l with
  | nil => simp [stopChanges] at hmem
  | cons b rest ih =>
    simp only [stopChanges] at hmem ⊢
    rcases List.mem_cons.1 hmem with hc | hm
    · injection hc with hab
      subst hab
      rw [hvol]
      exact .cons₂ _ (.cons₂ _ (List.nil_sublist _))
    · rcases List.mem_append.1 hm with hv | hr
      · cases hbv : b.volume with
        | some w => rw [hbv] at hv; simp at hv
        | none => rw [hbv] at hv; simp at hv
      · exact .cons _ ((ih hr).trans (List.sublist_append_right _ _))

/-- In the start phase, the attach action of a started application's
volume precedes that application's start action. -/
theorem attach_start_sublist {l : List Application} {a : Application}
    {v : AttachedVolume} (hvol : a.volume = some v)
    (hmem : StateChange.StartApplication a ∈ startChanges l) :
    List.Sublist
      [StateChange.AttachVolume v, StateChange.StartApplication a]
      (startChanges l) := by
  induction l with
  | nil => simp [startChanges] at hmem
  | cons b rest ih =>
    simp only [startChanges] at hmem ⊢
    rcases List.mem_append.1 hmem with hv | hm
    · cases hbv : b.volume with
      | some w => rw [hbv] at hv; simp at hv
      | none => rw [hbv] at hv; simp at hv
    · rcases List.mem_cons.1 hm with hc | hr
      · injection hc with hab
        subst hab
        rw [hvol]
        exact .cons₂ _ (.cons₂ _ (List.nil_sublist _))
      · refine ((ih hr).trans ?_)
        exact (List.Sublist.cons _ (List.Sublist.refl _)).trans
          (List.sublist_append_right _ _)

/-- C2: the plan is the stop phase followed by the start phase — stop and
detach actions all strictly before start and attach actions — and within
the phases each stopped application's detach follows its stop, each
started application's attach precedes its start. -/
theorem calculate_changes_ordering (desired current : Deployment)
    (hostname : Str) :
    calculate_changes desired current hostname =
      stopsPart desired current hostname ++
        startsPart desired current hostname ∧
    (∀ ch ∈ stopsPart desired current hostname,
      (∃ a, ch = StateChange.StopApplication a) ∨
        (∃ v, ch = StateChange.DetachVolume v)) ∧
    (∀ ch ∈ startsPart desired current hostname,
      (∃ a, ch = StateChange.StartApplication a) ∨
        (∃ v, ch = StateChange.AttachVolume v)) ∧
    (∀ a v, a.volume = some v →
      StateChange.StopApplication a ∈ stopsPart desired current hostname →
      List.Sublist
        [StateChange.StopApplication a, StateChange.DetachVolume v]
        (stopsPart desired current hostname)) ∧
    (∀ a v, a.volume = some v →
      StateChange.StartApplication a ∈
        startsPart desired current hostname →
      List.Sublist
        [StateChange.AttachVolume v, StateChange.StartApplication a]
        (startsPart desired current hostname)) :=
  ⟨rfl,
   fun _ h => mem_stopChanges h,
   fun _ h => mem_startChanges h,
   fun _ _ hvol hmem => stop_detach_sublist hvol hmem,
   fun _ _ hvol hmem => attach_start_sublist hvol hmem⟩

/-- Witness for C2: in the restart-with-volume example the stop phase
contains the stop of the old application followed by its volume detach. -/
theorem calculate_changes_ordering_witness :
    List.Sublist
      [StateChange.StopApplication exAppCur,
        StateChange.DetachVolume exVolume]
      (stopsPart exDesired exCurrent exHost) :=
  (calculate_changes_ordering exDesired exCurrent exHost).2.2.2.1
    exAppCur exVolume (by decide) (by decide)

/-- A structured configuration document (the YAML-like document model of
the configuration blob encoding of spec section 6). -/
inductive ConfigValue
  | str (s : Str)
  | num (n : Nat)
  | flag (b : Bool)
  | list (items : List ConfigValue)
  | map (entries : List (Str × ConfigValue))

/-- Look a key up in the entries of a mapping document. -/
def lookupKey (entries : List (Str × ConfigValue)) (key : Str) :
    Option ConfigValue :=
  (entries.find? (fun e => e.fst == key)).map Prod.snd

/-- The `image` key of an application document. -/
def imageKey : Str := "image".toList

/-- The `ports` key of an application document. -/
def portsKey : Str := "ports".toList

/-- The `links` key of an application document. -/
def linksKey : Str := "links".toList

/-- The `running` key of an application document. -/
def runningKey : Str := "running".toList

/-- The `volume` key of an application document. -/
def volumeKey : Str := "volume".toList

/-- The `name` key of a volume or restart-policy document. -/
def nameKey : Str := "name".toList

/-- The `mountpoint` key of a volume document. -/
def mountpointKey : Str := "mountpoint".toList

/-- The `internal_port` key of a port-mapping document. -/
def internalKey : Str := "internal_port".toList

/-- The `external_port` key of a port-mapping document. -/
def externalKey : Str := "external_port".toList

/-- The `local_port` key of a link document. -/
def localKey : Str := "local_port".toList

/-- The `remote_port` key of a link document. -/
def remoteKey : Str := "remote_port".toList

/-- The `alias` key of a link document. -/
def aliasKey : Str := "alias".toList

/-- The `applications` key of a configuration document. -/
def applicationsKey : Str := "applications".toList

/-- The `nodes` key of a deployment configuration document. -/
def nodesKey : Str := "nodes".toList

/-- The `version` key of a configuration document. -/
def versionKey : Str := "version".toList

/-- The `used_ports` key of a state report document. -/
def usedPortsKey : Str := "used_ports".toList

/-- The prefix of every configuration error surfaced by the change-state
command line (the test fixtures show the full message). -/
def configErrorIntro : Str := "Configuration Error: ".toList

/-- The wrapper of every application configuration error. -/
def applicationErrorIntro : Str :=
  "Application configuration has an error. ".toList

/-- The error detail for an application configuration without an
`applications` key. -/
def missingApplicationsDetail : Str :=
  "Missing \x27applications\x27 key.".toList

@[simp] theorem exceptBind_ok {α β ε : Type} (x : α)
    (f : α → Except ε β) : (Except.ok x : Except ε α).bind f = f x := rfl

@[simp] theorem exceptBind_error {α β ε : Type} (e : ε)
    (f : α → Except ε β) :
    (Except.error e : Except ε α).bind f = .error e := rfl

@[simp] theorem exceptMap_ok {α β ε : Type} (x : α) (f : α → β) :
    Except.map f (Except.ok x : Except ε α) = .ok (f x) := rfl

/-- Modelled from the spec: encode a port mapping into a document. -/
def encodePortMap (p : PortMap) : ConfigValue :=
  .map [(internalKey, .num p.internalPort),
        (externalKey, .num p.externalPort)]

/-- Modelled from the spec: decode a port mapping document. -/
def decodePortMap (v : ConfigValue) : Except Str PortMap :=
  match v with
  | .map entries =>
    match lookupKey entries internalKey, lookupKey entries externalKey with
    | some (.num i), some (.num e) => .ok ⟨i, e⟩
    | _, _ =>
      .error (applicationErrorIntro ++ "Invalid ports specification.".toList)
  | _ =>
    .error (applicationErrorIntro ++ "Invalid ports specification.".toList)

/-- Modelled from the spec: encode a link into a document. -/
def encodeLink (l : Link) : ConfigValue :=
  .map [(localKey, .num l.localPort),
        (remoteKey, .num l.remotePort),
        (aliasKey, .str l.linkAlias)]

/-- Modelled from the spec: decode a link document. -/
def decodeLink (v : ConfigValue) : Except Str Link :=
  match v with
  | .map entries =>
    match lookupKey entries localKey, lookupKey entries remoteKey,
        lookupKey entries aliasKey with
    | some (.num lp), some (.num rp), some (.str al) => .ok ⟨lp, rp, al⟩
    | _, _, _ =>
      .error (applicationErrorIntro ++ "Invalid links specification.".toList)
  | _ =>
    .error (applicationErrorIntro ++ "Invalid links specification.".toList)

/-- Decode every item of a list with the given item decoder, failing on
the first failure. -/
def decodeAll {α : Type} (f : ConfigValue → Except Str α) :
    List ConfigValue → Except Str (List α)
  | [] => .ok []
  | v :: rest =>
    (f v).bind (fun a => (decodeAll f rest).map (fun as => a :: as))

/-- Decoding an encoded list item by item recovers the original list. -/
theorem decodeAll_map {α : Type} {f : ConfigValue → Except Str α}
    {enc : α → ConfigValue} {l : List α}
    (h : ∀ a ∈ l, f (enc a) = .ok a) :
    decodeAll f (l.map enc) = .ok l := by
  induction l with
  | nil => rfl
  | cons a rest ih =>
    have ha := h a (List.mem_cons_self a rest)
    have hrest := ih (fun b hb => h b (List.mem_cons_of_mem a hb))
    simp [decodeAll, ha, hrest]

/-- Modelled from the spec: encode an attached volume into a document. -/
def encodeVolume (v : AttachedVolume) : ConfigValue :=
  .map [(nameKey, .str v.name), (mountpointKey, .str v.mountpoint)]

/-- The entries of an encoded application document. -/
def appEntries (a : Application) : List (Str × ConfigValue) :=
  [(imageKey, .str a.image.full),
   (portsKey, .list (a.ports.map encodePortMap)),
   (linksKey, .list (a.links.map encodeLink)),
   (runningKey, .flag a.running)] ++
    (match a.volume with
     | some v => [(volumeKey, encodeVolume v)]
     | none => [])

/-- Modelled from the spec: encode an application into a document. -/
def encodeApplicationValue (a : Application) : ConfigValue :=
  .map (appEntries a)

/-- Modelled from the spec: encode an application as a named entry of an
`applications` mapping. -/
def encodeApplication (a : Application) : Str × ConfigValue :=
  (a.name, encodeApplicationValue a)

/-- Decode the `image` field of an application document. -/
def decodeImageField (entries : List (Str × ConfigValue)) :
    Except Str DockerImage :=
  match lookupKey entries imageKey with
  | some (.str s) => DockerImage.fromString s
  | _ =>
    .error (applicationErrorIntro ++ "Invalid image specification.".toList)

/-- Decode the `ports` field of an application document, defaulting to
no port mappings when absent. -/
def decodePortsField (entries : List (Str × ConfigValue)) :
    Except Str (List PortMap) :=
  match lookupKey entries portsKey with
  | some (.list items) => decodeAll decodePortMap items
  | none => .ok []
  | some _ =>
    .error (applicationErrorIntro ++ "Invalid ports specification.".toList)

/-- Decode the `links` field of an application document, defaulting to
no links when absent. -/
def decodeLinksField (entries : List (Str × ConfigValue)) :
    Except Str (List Link) :=
  match lookupKey entries linksKey with
  | some (.list items) => decodeAll decodeLink items
  | none => .ok []
  | some _ =>
    .error (applicationErrorIntro ++ "Invalid links specification.".toList)

/-- Decode the `running` field of an application document, defaulting to
running when absent. -/
def decodeRunningField (entries : List (Str × ConfigValue)) :
    Except Str Bool :=
  match lookupKey entries runningKey with
  | some (.flag b) => .ok b
  | none => .ok true
  | some _ =>
    .error (applicationErrorIntro ++ "Invalid running specification.".toList)

/-- Decode the `volume` field of an application document; a volume entry
carrying only a mountpoint takes the surrounding application's name as
its volume name. -/
def decodeVolumeField (name : Str) (entries : List (Str × ConfigValue)) :
    Except Str (Option AttachedVolume) :=
  match lookupKey entries volumeKey with
  | none => .ok none
  | some (.map ventries) =>
    match lookupKey ventries mountpointKey with
    | some (.str m) =>
      match lookupKey ventries nameKey with
      | some (.str n) => .ok (some ⟨n, m⟩)
      | none => .ok (some ⟨name, m⟩)
      | some _ =>
        .error (applicationErrorIntro ++
          "Invalid volume specification.".toList)
    | _ =>
      .error (applicationErrorIntro ++
        "AttachedVolume must contain a mountpoint.".toList)
  | some _ =>
    .error (applicationErrorIntro ++ "Invalid volume specification.".toList)

/-- Modelled from the spec: decode one named application document. -/
def decodeApplication (name : Str) (v : ConfigValue) :
    Except Str Application :=
  match v with
  | .map entries =>
    (decodeImageField entries).bind (fun image =>
      (decodePortsField entries).bind (fun appPorts =>
        (decodeLinksField entries).bind (fun appLinks =>
          (decodeRunningField entries).bind (fun running =>
            (decodeVolumeField name entries).map (fun volume =>
              ⟨name, image, appPorts, appLinks, volume, running⟩)))))
  | _ =>
    .error (applicationErrorIntro ++
      "Application entry must be a mapping.".toList)

theorem decodePortMap_encode (p : PortMap) :
    decodePortMap (encodePortMap p) = .ok p := rfl

theorem decodeLink_encode (l : Link) :
    decodeLink (encodeLink l) = .ok l := rfl

/-- The volume field decodes back to the encoded application's volume. -/
theorem decodeVolumeField_appEntries (name : Str) (a : Application) :
    decodeVolumeField name (appEntries a) = .ok a.volume := by
  simp only [appEntries]
  cases hv : a.volume with
  | none => rfl
  | some v => rfl

/-- Images valid for lossless encoding: colon-free tag (so the canonical
string form is unambiguous) and nonempty repository. -/
def imageValid (i : DockerImage) : Prop :=
  ':' ∉ i.tag ∧ i.repository ≠ []

instance (i : DockerImage) : Decidable (imageValid i) :=
  inferInstanceAs (Decidable (_ ∧ _))

/-- Decoding an encoded application document recovers the application. -/
theorem decodeApplication_encode (a : Application)
    (hval : imageValid a.image) :
    decodeApplication a.name (encodeApplicationValue a) = .ok a := by
  have himg : decodeImageField (appEntries a) = .ok a.image :=
    fromString_full a.image hval.1 hval.2
  have hports : decodePortsField (appEntries a) = .ok a.ports :=
    decodeAll_map (fun p _ => decodePortMap_encode p)
  have hlinks : decodeLinksField (appEntries a) = .ok a.links :=
    decodeAll_map (fun l _ => decodeLink_encode l)
  have hrun : decodeRunningField (appEntries a) = .ok a.running := rfl
  have hvol := decodeVolumeField_appEntries a.name a
  simp only [encodeApplicationValue, decodeApplication, himg, hports,
    hlinks, hrun, hvol, exceptBind_ok, exceptMap_ok]

/-- Decode the entries of an `applications` mapping. -/
def decodeApplicationEntries :
    List (Str × ConfigValue) → Except Str (List Application)
  | [] => .ok []
  | e :: rest =>
    (decodeApplication e.fst e.snd).bind (fun a =>
      (decodeApplicationEntries rest).map (fun as => a :: as))

/-- Decoding an encoded `applications` mapping recovers the list. -/
theorem decodeApplicationEntries_encode {apps : List Application}
    (h : ∀ a ∈ apps, imageValid a.image) :
    decodeApplicationEntries (apps.map encodeApplication) = .ok apps := by
  induction apps with
  | nil => rfl
  | cons a rest ih =>
    have ha := decodeApplication_encode a (h a (List.mem_cons_self a rest))
    have hrest := ih (fun b hb => h b (List.mem_cons_of_mem a hb))
    simp [decodeApplicationEntries, encodeApplication, ha, hrest]

/-- Decode the `applications` mapping of a configuration document's
entries; a missing `applications` key is the configuration error named
by the tests. -/
def decodeApplicationsOf (entries : List (Str × ConfigValue)) :
    Except Str (List Application) :=
  match lookupKey entries applicationsKey with
  | some (.map appMap) => decodeApplicationEntries appMap
  | none => .error (applicationErrorIntro ++ missingApplicationsDetail)
  | some _ =>
    .error (applicationErrorIntro ++
      "Invalid applications specification.".toList)

/-- Check the `version` field of a configuration document's entries;
only version 1 documents are supported. -/
def checkVersion (entries : List (Str × ConfigValue)) :
    Except Str Bool :=
  match lookupKey entries versionKey with
  | some (.num 1) => .ok true
  | some (.num _) =>
    .error ("Unsupported configuration version.".toList)
  | _ => .error ("Missing \x27version\x27 key.".toList)

/-- The entries of an encoded node document. -/
def nodeEntries (n : Node) : List (Str × ConfigValue) :=
  [(versionKey, .num 1),
   (applicationsKey, .map (n.applications.map encodeApplication))]

/-- Modelled from the spec: encode one node of a current-state document. -/
def encodeNodeValue (n : Node) : ConfigValue :=
  .map (nodeEntries n)

/-- Modelled from the spec: decode one node of a current-state document,
keyed by its hostname. -/
def decodeNode (hostname : Str) (v : ConfigValue) : Except Str Node :=
  match v with
  | .map entries =>
    (decodeApplicationsOf entries).bind (fun apps =>
      (checkVersion entries).map (fun _ => ⟨hostname, apps⟩))
  | _ => .error ("Node configuration must be a mapping.".toList)

/-- Decoding an encoded node document recovers the node. -/
theorem decodeNode_encode (n : Node)
    (h : ∀ a ∈ n.applications, imageValid a.image) :
    decodeNode n.hostname (encodeNodeValue n) = .ok n := by
  have happ : decodeApplicationsOf (nodeEntries n) =
      decodeApplicationEntries (n.applications.map encodeApplication) := rfl
  have hv : checkVersion (nodeEntries n) = .ok true := rfl
  simp only [encodeNodeValue, decodeNode, happ,
    decodeApplicationEntries_encode h, hv, exceptBind_ok, exceptMap_ok]

/-- Decode the entries of a current-state document, hostname by
hostname. -/
def decodeNodeEntries :
    List (Str × ConfigValue) → Except Str (List Node)
  | [] => .ok []
  | e :: rest =>
    (decodeNode e.fst e.snd).bind (fun n =>
      (decodeNodeEntries rest).map (fun ns => n :: ns))

/-- Modelled from the spec: encode a whole deployment as a current-state
document mapping hostnames to node documents. -/
def encodeDeployment (d : Deployment) : ConfigValue :=
  .map (d.nodes.map (fun n => (n.hostname, encodeNodeValue n)))

/-- Modelled from the spec: decode a current-state document into a
deployment. -/
def decodeDeployment (v : ConfigValue) : Except Str Deployment :=
  match v with
  | .map entries => (decodeNodeEntries entries).map Deployment.mk
  | _ => .error ("Current configuration must be a mapping.".toList)

/-- Modelled from the spec: validity of a deployment value — hostnames
pairwise distinct, application names distinct per node, and every image
within the unambiguous fragment of the reference syntax. -/
def Deployment.valid (d : Deployment) : Prop :=
  d.nodes.Pairwise (fun n m => n.hostname ≠ m.hostname) ∧
    ∀ n ∈ d.nodes, distinctNames n.applications ∧
      ∀ a ∈ n.applications, imageValid a.image

instance (d : Deployment) : Decidable d.valid :=
  inferInstanceAs (Decidable (_ ∧ _))

/-- Decoding an encoded node list recovers the list. -/
theorem decodeNodeEntries_encode {nodes : List Node}
    (h : ∀ n ∈ nodes, ∀ a ∈ n.applications, imageValid a.image) :
    decodeNodeEntries (nodes.map (fun n => (n.hostname, encodeNodeValue n)))
      = .ok nodes := by
  induction nodes with
  | nil => rfl
  | cons n rest ih =>
    have hn := decodeNode_encode n (h n (List.mem_cons_self n rest))
    have hrest := ih (fun m hm => h m (List.mem_cons_of_mem n hm))
    simp [decodeNodeEntries, hn, hrest]

/-- C4: the configuration round trip is lossless — decoding the encoding
of any valid deployment yields a value structurally equal to the
original. -/
theorem deployment_roundtrip (d : Deployment) (hvalid : d.valid) :
    decodeDeployment (encodeDeployment d) = .ok d := by
  have h := decodeNodeEntries_encode
    (fun n hn a ha => (hvalid.2 n hn).2 a ha)
  simp only [encodeDeployment, decodeDeployment, h, exceptMap_ok]

/-- Witness for C4: the round trip at the worked example deployment. -/
theorem deployment_roundtrip_witness :
    decodeDeployment (encodeDeployment exDesired) = .ok exDesired :=
  deployment_roundtrip exDesired (by decide)

/-- The intro of a deployment configuration error. -/
def deploymentErrorIntro : Str :=
  "Deployment configuration has an error. ".toList

/-- Modelled from the spec: resolve a list of application names of a
deployment configuration against the parsed applications; a reference to
an undefined application name fails. -/
def decodeAppNames (apps : List Application) :
    List ConfigValue → Except Str (List Application)
  | [] => .ok []
  | .str name :: rest =>
    match apps.find? (fun a => a.name == name) with
    | some a => (decodeAppNames apps rest).map (fun as => a :: as)
    | none =>
      .error (deploymentErrorIntro ++
        "Unknown application: ".toList ++ name)
  | _ :: _ =>
    .error (deploymentErrorIntro ++
      "Application names must be strings.".toList)

/-- Decode the `nodes` mapping of a deployment configuration: each
hostname carries the list of names of the applications to run there. -/
def decodeDeploymentNodes (apps : List Application) :
    List (Str × ConfigValue) → Except Str (List Node)
  | [] => .ok []
  | e :: rest =>
    match e.snd with
    | .list items =>
      (decodeAppNames apps items).bind (fun as =>
        (decodeDeploymentNodes apps rest).map (fun ns =>
          ⟨e.fst, as⟩ :: ns))
    | _ =>
      .error (deploymentErrorIntro ++ "Node entries must be lists.".toList)

/-- Modelled from the spec: decode a deployment configuration document
(`nodes` mapping plus `version`) against the parsed applications. -/
def decodeDeploymentConfig (apps : List Application) (v : ConfigValue) :
    Except Str Deployment :=
  match v with
  | .map entries =>
    match lookupKey entries nodesKey with
    | some (.map nodeMap) =>
      (decodeDeploymentNodes apps nodeMap).bind (fun ns =>
        (checkVersion entries).map (fun _ => ⟨ns⟩))
    | none =>
      .error (deploymentErrorIntro ++ "Missing \x27nodes\x27 key.".toList)
    | some _ =>
      .error (deploymentErrorIntro ++
        "Invalid nodes specification.".toList)
  | _ =>
    .error (deploymentErrorIntro ++ "Configuration must be a mapping.".toList)

/-- Modelled from the spec: decode an application configuration document
(`applications` mapping plus `version`). -/
def decodeApplicationsConfig (v : ConfigValue) :
    Except Str (List Application) :=
  match v with
  | .map entries =>
    (decodeApplicationsOf entries).bind (fun apps =>
      (checkVersion entries).map (fun _ => apps))
  | _ =>
    .error (applicationErrorIntro ++ "Configuration must be a mapping.".toList)

/-- A string is ASCII when each character's code point is below 128. -/
def isAsciiStr (s : Str) : Bool :=
  s.all (fun c => c.toNat < 128)

/-- The error naming a hostname that is not addressable in ASCII. -/
def nonAsciiMsg (hostname : Str) : Str :=
  "Non-ASCII hostname: ".toList ++ hostname

/-- Wrap a configuration error the way the change-state command line
surfaces it. -/
def wrapConfigError {α : Type} : Except Str α → Except Str α
  | .ok a => .ok a
  | .error e => .error (configErrorIntro ++ e)

/-- The intro of the unparseable deployment configuration error. -/
def deploymentParseIntro : Str :=
  "Deployment config could not be parsed".toList

/-- The full error for an unparseable deployment configuration. -/
def deploymentYamlMsg : Str :=
  deploymentParseIntro ++ " as YAML".toList

/-- The error for an unparseable application configuration. -/
def applicationYamlMsg : Str :=
  "Application config could not be parsed as YAML".toList

/-- The error for an unparseable current configuration. -/
def currentYamlMsg : Str :=
  "Current config could not be parsed as YAML".toList

/-- The values carried by fully parsed change-state options. -/
structure ChangeStateOptions where
  deployment : Deployment
  current : Deployment
  hostname : Str
deriving DecidableEq

/-- Modelled from the spec: `ChangeStateOptions.parseOptions` of
`flocker.node.script` (absent from the sources).  Each document argument
is `none` when its text was not parseable at all, `some` its document
otherwise; a non-ASCII hostname is rejected before any engine work. -/
def changeStateParse
    (deploymentDoc applicationDoc currentDoc : Option ConfigValue)
    (hostname : Str) : Except Str ChangeStateOptions :=
  if isAsciiStr hostname then
    match deploymentDoc with
    | none => .error deploymentYamlMsg
    | some depDoc =>
      match applicationDoc with
      | none => .error applicationYamlMsg
      | some appDoc =>
        match currentDoc with
        | none => .error currentYamlMsg
        | some curDoc =>
          wrapConfigError
            ((decodeApplicationsConfig appDoc).bind (fun apps =>
              (decodeDeploymentConfig apps depDoc).bind (fun dep =>
                (decodeDeployment curDoc).map (fun cur =>
                  ⟨dep, cur, hostname⟩))))
  else .error (nonAsciiMsg hostname)

/-- C5: an application configuration without an `applications` key fails
with the missing-key detail inside the application configuration error
message, and unparseable deployment input fails with a message beginning
`Deployment config could not be parsed`. -/
theorem configuration_error_messages :
    (∀ (entries : List (Str × ConfigValue))
      (depDoc curDoc : ConfigValue) (hostname : Str),
      isAsciiStr hostname = true →
      lookupKey entries applicationsKey = none →
      changeStateParse (some depDoc) (some (.map entries)) (some curDoc)
          hostname =
        .error (configErrorIntro ++
          (applicationErrorIntro ++ missingApplicationsDetail))) ∧
    (∀ (applicationDoc currentDoc : Option ConfigValue) (hostname : Str),
      isAsciiStr hostname = true →
      changeStateParse none applicationDoc currentDoc hostname =
        .error (deploymentParseIntro ++ " as YAML".toList)) := by
  constructor
  · intro entries depDoc curDoc hostname hascii hlookup
    simp [changeStateParse, hascii, decodeApplicationsConfig,
      decodeApplicationsOf, hlookup, wrapConfigError]
  · intro applicationDoc currentDoc hostname hascii
    simp [changeStateParse, hascii, deploymentYamlMsg]

/-- Witness for C5: the empty mapping as application configuration is
rejected with the exact message of the tests. -/
theorem configuration_error_messages_witness :
    changeStateParse (some (.map [])) (some (.map [])) (some (.map []))
        exHost =
      .error (configErrorIntro ++
        (applicationErrorIntro ++ missingApplicationsDetail)) :=
  configuration_error_messages.1 [] (.map []) (.map []) exHost
    (by decide) rfl

/-- The empty deployment configuration document. -/
def emptyDeploymentDoc : ConfigValue :=
  .map [(nodesKey, .map []), (versionKey, .num 1)]

/-- The empty application configuration document. -/
def emptyApplicationsDoc : ConfigValue :=
  .map [(applicationsKey, .map []), (versionKey, .num 1)]

/-- A non-ASCII hostname (a pound sign). -/
def exNonAsciiHost : Str := [Char.ofNat 163]

/-- C8: the convergence path fails only on structurally invalid input —
a non-ASCII hostname is rejected, naming the hostname, before any engine
work; the engine itself always returns a (possibly empty) plan; and
structurally valid input parses successfully, the engine error having no
other trigger on that path. -/
theorem convergence_failure_modes :
    (∀ (deploymentDoc applicationDoc currentDoc : Option ConfigValue)
      (hostname : Str), isAsciiStr hostname = false →
      changeStateParse deploymentDoc applicationDoc currentDoc hostname =
        .error (nonAsciiMsg hostname)) ∧
    (∀ (desired current : Deployment) (hostname : Str),
      ∃ plan, calculate_changes desired current hostname = plan) ∧
    (∀ hostname : Str, isAsciiStr hostname = true →
      changeStateParse (some emptyDeploymentDoc)
          (some emptyApplicationsDoc) (some (.map [])) hostname =
        .ok ⟨⟨[]⟩, ⟨[]⟩, hostname⟩) := by
  refine ⟨?_, ?_, ?_⟩
  · intro deploymentDoc applicationDoc currentDoc hostname hascii
    simp [changeStateParse, hascii]
  · intro desired current hostname
    exact ⟨_, rfl⟩
  · intro hostname hascii
    simp [changeStateParse, hascii]
    rfl

/-- Witness for C8: the non-ASCII hostname of the tests is rejected with
the error naming it. -/
theorem convergence_failure_modes_witness :
    changeStateParse (some emptyDeploymentDoc) (some emptyApplicationsDoc)
        (some (.map [])) exNonAsciiHost =
      .error (nonAsciiMsg exNonAsciiHost) :=
  convergence_failure_modes.1 (some emptyDeploymentDoc)
    (some emptyApplicationsDoc) (some (.map [])) exNonAsciiHost
    (by decide)

/-- C9: a volume entry of a current-state application document carrying
only a mountpoint yields an `AttachedVolume` whose name defaults to the
name of the application that carries it. -/
theorem volume_name_defaults (name mountpoint img : Str)
    (image : DockerImage)
    (himg : DockerImage.fromString img = .ok image) :
    decodeApplication name
      (.map [(imageKey, .str img),
        (volumeKey, .map [(mountpointKey, .str mountpoint)])]) =
      .ok ⟨name, image, [], [], some ⟨name, mountpoint⟩, true⟩ := by
  have h1 : decodeImageField
      [(imageKey, .str img),
        (volumeKey, .map [(mountpointKey, .str mountpoint)])] =
      .ok image := himg
  simp only [decodeApplication, h1, exceptBind_ok]
  rfl

/-- The application name of the current-configuration test fixture. -/
def exVolAppName : Str := "mysql-something".toList

/-- The mountpoint of the current-configuration test fixture. -/
def exMountPoint : Str := "/var/lib/data".toList

/-- The image reference of the current-configuration test fixture. -/
def exUnknownImage : Str := "unknown".toList

/-- Witness for C9: the current-configuration fixture of the tests. -/
theorem volume_name_defaults_witness :
    decodeApplication exVolAppName
      (.map [(imageKey, .str exUnknownImage),
        (volumeKey, .map [(mountpointKey, .str exMountPoint)])]) =
      .ok ⟨exVolAppName, ⟨exUnknownImage, latestTag⟩, [], [],
        some ⟨exVolAppName, exMountPoint⟩, true⟩ :=
  volume_name_defaults exVolAppName exMountPoint exUnknownImage
    ⟨exUnknownImage, latestTag⟩ rfl

/-- Modelled from the spec: a unit reported by the container runtime
(`flocker.node._docker.Unit`, absent from the sources). -/
structure ContainerUnit where
  name : Str
  container_image : Str
  activation_state : Str
deriving DecidableEq

/-- The `active` activation state. -/
def activeState : Str := "active".toList

/-- Modelled from the spec: map a runtime unit to an `Application` —
name from the unit identity, image from its reference, running exactly
when the activation state is `active`. -/
def unitApplication (u : ContainerUnit) : Application :=
  ⟨u.name,
   (DockerImage.fromString u.container_image).toOption.getD
     ⟨u.container_image, latestTag⟩,
   [], [], none, u.activation_state == activeState⟩

/-- The `restart_policy` key of a reported application document. -/
def restartPolicyKey : Str := "restart_policy".toList

/-- The `never` restart policy name. -/
def neverStr : Str := "never".toList

/-- One application entry of the state report, keyed by unit name. -/
def reportApplicationEntry (u : ContainerUnit) : Str × ConfigValue :=
  (u.name, .map [(imageKey, .str u.container_image),
    (restartPolicyKey, .map [(nameKey, .str neverStr)])])

/-- Sort a list of port numbers ascendingly. -/
def sortNats (l : List Nat) : List Nat :=
  List.insertionSort (· ≤ ·) l

/-- The entries of the state report document. -/
def reportEntries (units : List ContainerUnit) (usedPorts : List Nat) :
    List (Str × ConfigValue) :=
  [(usedPortsKey, .list ((sortNats usedPorts).map ConfigValue.num)),
   (applicationsKey, .map (units.map reportApplicationEntry)),
   (versionKey, .num 1)]

/-- Modelled from the spec: the single structured document that
`ReportStateScript.main` of `flocker.node.script` (absent from the
sources) writes to its standard output stream — every managed unit as an
application, the used ports sorted, and a version of 1. -/
def reportStateDoc (units : List ContainerUnit) (usedPorts : List Nat) :
    ConfigValue :=
  .map (reportEntries units usedPorts)

/-- C6: the report-state output carries a version field equal to 1, the
used ports as a sorted rearrangement of the discovered set, and one
application entry per managed unit — active or not, every unit's name is
a key of the applications mapping. -/
theorem report_state_output (units : List ContainerUnit)
    (usedPorts : List Nat) :
    reportStateDoc units usedPorts = .map (reportEntries units usedPorts) ∧
    lookupKey (reportEntries units usedPorts) versionKey =
      some (.num 1) ∧
    lookupKey (reportEntries units usedPorts) usedPortsKey =
      some (.list ((sortNats usedPorts).map ConfigValue.num)) ∧
    (sortNats usedPorts).Sorted (· ≤ ·) ∧
    List.Perm (sortNats usedPorts) usedPorts ∧
    lookupKey (reportEntries units usedPorts) applicationsKey =
      some (.map (units.map reportApplicationEntry)) ∧
    ∀ u ∈ units,
      (units.map reportApplicationEntry).find?
          (fun e => e.fst == u.name) ≠ none := by
  refine ⟨rfl, rfl, rfl, List.sorted_insertionSort _ _,
    List.perm_insertionSort _ _, rfl, ?_⟩
  intro u hu hnone
  rcases List.find?_eq_none.1 hnone (reportApplicationEntry u)
      (List.mem_map_of_mem _ hu) with hfalse
  simp [reportApplicationEntry] at hfalse

/-- The first unit of the report-state test fixture. -/
def exUnitCom : ContainerUnit :=
  ⟨"site-example.com".toList, "clusterhq/wordpress:latest".toList,
    activeState⟩

/-- The second, inactive unit of the report-state test fixture. -/
def exUnitNet : ContainerUnit :=
  ⟨"site-example.net".toList, "clusterhq/wordpress:latest".toList,
    "inactive".toList⟩

/-- The used ports of the report-state test fixture. -/
def exUsedPorts : List Nat := [52000, 1, 200, 10]

/-- Witness for C6: the used ports of the test fixture come out sorted. -/
theorem report_state_output_witness :
    (sortNats exUsedPorts).Sorted (· ≤ ·) :=
  (report_state_output [exUnitCom, exUnitNet] exUsedPorts).2.2.2.1

/-- An observable event of the serve script's shutdown sequence: the
reactor's shutdown system event, or the firing of the completion of the
service's `stopService`. -/
inductive ServeEvent
  | shutdown
  | stopComplete
deriving DecidableEq

/-- The state of the serve script after `main` has returned: whether the
service runs, whether its stop was requested, whether the stop's
completion has fired, and the value of `main`'s completion — `none`
while unfired, `some none` once fired with the `None` value. -/
structure ServeState where
  serviceRunning : Bool
  stopCalled : Bool
  stopFired : Bool
  mainResult : Option (Option Unit)
deriving DecidableEq

/-- Modelled from the spec: right after `ServeScript.main` of
`flocker.node.script` (absent from the sources) returns, the service is
started, no stop happened, and the returned completion is unfired. -/
def serveInit : ServeState :=
  ⟨true, false, false, none⟩

/-- Modelled from the spec: one step of the shutdown sequence — the
shutdown event stops the service, and `main`'s completion is chained to
fire with `None` only when the stop's completion fires (immediately for
a synchronous stop, `asyncStop = false`). -/
def serveStep (asyncStop : Bool) (s : ServeState) :
    ServeEvent → ServeState
  | .shutdown =>
    if s.stopCalled then s
    else if asyncStop then ⟨false, true, s.stopFired, s.mainResult⟩
    else ⟨false, true, true, some none⟩
  | .stopComplete =>
    if s.stopCalled && !s.stopFired then
      ⟨s.serviceRunning, s.stopCalled, true, some none⟩
    else s

/-- Run the shutdown sequence over a list of events. -/
def serveRun (asyncStop : Bool) (events : List ServeEvent) : ServeState :=
  events.foldl (serveStep asyncStop) serveInit

/-- The ordering invariant of the serve state: the completion of `main`
is fired only after the stop's completion, and then with `None`. -/
def serveInvB (s : ServeState) : Bool :=
  (!s.mainResult.isSome || s.stopFired) &&
    (!s.stopFired || decide (s.mainResult = some none))

/-- Every step of the shutdown sequence preserves the invariant. -/
theorem serveInvB_step (asyncStop : Bool) (s : ServeState)
    (e : ServeEvent) (h : serveInvB s = true) :
    serveInvB (serveStep asyncStop s e) = true := by
  obtain ⟨sr, sc, sf, mr⟩ := s
  have hmr : mr = none ∨ mr = some none ∨ mr = some (some ()) := by
    rcases mr with - | (- | u)
    · exact .inl rfl
    · exact .inr (.inl rfl)
    · exact .inr (.inr rfl)
  rcases hmr with rfl | rfl | rfl <;> cases e <;> cases asyncStop <;>
    cases sr <;> cases sc <;> cases sf <;> revert h <;> decide

/-- The invariant holds after any event sequence. -/
theorem serveInvB_run (asyncStop : Bool) (events : List ServeEvent) :
    serveInvB (serveRun asyncStop events) = true := by
  rw [serveRun]
  have h : ∀ s : ServeState, serveInvB s = true →
      serveInvB (events.foldl (serveStep asyncStop) s) = true := by
    induction events with
    | nil => intro s hs; simpa using hs
    | cons e rest ih =>
      intro s hs
      simp only [List.foldl_cons]
      exact ih _ (serveInvB_step asyncStop s e hs)
  exact h serveInit (by decide)

/-- C7: over every shutdown sequence, `main`'s completion never fires
before the completion of the service's `stopService` has fired, and once
that has fired `main`'s completion has fired with `None`; concretely,
after the shutdown event alone the asynchronous-stop state leaves
`main`'s completion unfired, and it fires with `None` once the stop's
completion fires. -/
theorem serve_completion_order :
    (∀ (asyncStop : Bool) (events : List ServeEvent),
      (serveRun asyncStop events).mainResult.isSome = true →
      (serveRun asyncStop events).stopFired = true) ∧
    (∀ (asyncStop : Bool) (events : List ServeEvent),
      (serveRun asyncStop events).stopFired = true →
      (serveRun asyncStop events).mainResult = some none) ∧
    (serveRun true [ServeEvent.shutdown]).mainResult = none ∧
    (serveRun true
      [ServeEvent.shutdown, ServeEvent.stopComplete]).mainResult =
        some none := by
  refine ⟨?_, ?_, by decide, by decide⟩
  · intro asyncStop events hm
    have h := serveInvB_run asyncStop events
    rw [serveInvB, Bool.and_eq_true, Bool.or_eq_true,
      Bool.or_eq_true] at h
    rcases h.1 with h1 | h1
    · rw [hm] at h1; simp at h1
    · exact h1
  · intro asyncStop events hf
    have h := serveInvB_run asyncStop events
    rw [serveInvB, Bool.and_eq_true, Bool.or_eq_true,
      Bool.or_eq_true] at h
    rcases h.2 with h2 | h2
    · rw [hf] at h2; simp at h2
    · exact of_decide_eq_true h2

/-- Witness for C7: after shutdown followed by the stop completion, the
stop has fired (instantiating the never-fires-before conjunct). -/
theorem serve_completion_order_witness :
    (serveRun true
      [ServeEvent.shutdown, ServeEvent.stopComplete]).stopFired = true :=
  serve_completion_order.1 true
    [ServeEvent.shutdown, ServeEvent.stopComplete] (by decide)

/-- Accumulate the decimal digits of a string into a number, failing on
any non-digit. -/
def strToNatAux : Str → Nat → Option Nat
  | [], acc => some acc
  | c :: rest, acc =>
    if c.isDigit then strToNatAux rest (acc * 10 + (c.toNat - 48))
    else none

/-- Parse a nonempty all-digit string as a number. -/
def strToNat? : Str → Option Nat
  | [] => none
  | c :: rest => strToNatAux (c :: rest) 0

/-- The default port of the HTTP API server. -/
def defaultApiPort : Nat := 4523

/-- The `--port` command-line flag. -/
def portFlag : Str := "--port".toList

/-- The error for a `--port` value that is not a number. -/
def invalidPortMsg : Str := "Invalid port number.".toList

/-- The error for an unrecognized serve option. -/
def unknownOptionMsg : Str := "Unknown option.".toList

/-- Modelled from the spec: `ServeOptions.parseOptions` of
`flocker.node.script` (absent from the sources) — the port option
defaults to 4523 and `--port N` overrides it. -/
def parseServeOptions (args : List Str) : Except Str Nat :=
  match args with
  | [] => .ok defaultApiPort
  | [flag, value] =>
    if flag == portFlag then
      match strToNat? value with
      | some n => .ok n
      | none => .error invalidPortMsg
    else .error unknownOptionMsg
  | _ => .error unknownOptionMsg

/-- The factory name of the HTTP API server. -/
def siteFactory : Str := "Site".toList

/-- The externally observable result of running `ServeScript.main`: the
TCP servers started on the reactor (port and factory) and the serve
state of the shutdown sequence. -/
structure ServeMainResult where
  tcpServers : List (Nat × Str)
  state : ServeState
deriving DecidableEq

/-- Modelled from the spec: `ServeScript.main` of `flocker.node.script`
(absent from the sources) starts the service and exactly one HTTP
`Site` server listening on the configured port, returning its unfired
completion. -/
def serveMain (port : Nat) : ServeMainResult :=
  ⟨[(port, siteFactory)], serveInit⟩

/-- C10: the serve options parse to port 4523 when `--port` is absent
and to `N` for `--port N`, and `ServeScript.main` starts exactly one
HTTP `Site` server on the configured port. -/
theorem serve_options_port :
    parseServeOptions [] = .ok defaultApiPort ∧
    defaultApiPort = 4523 ∧
    (∀ (value : Str) (n : Nat), strToNat? value = some n →
      parseServeOptions [portFlag, value] = .ok n) ∧
    ∀ port : Nat, (serveMain port).tcpServers = [(port, siteFactory)] := by
  refine ⟨rfl, rfl, ?_, fun port => rfl⟩
  intro value n h
  simp [parseServeOptions, h]

/-- The sample `--port` value of the serve options tests. -/
def exPortValue : Str := "1234".toList

/-- Witness for C10: `--port 1234` parses to port 1234. -/
theorem serve_options_port_witness :
    parseServeOptions [portFlag, exPortValue] = .ok 1234 :=
  serve_options_port.2.2.1 exPortValue 1234 (by decide)
